import Mathlib

/-!
Shallow embedding of the aggregate-root engine in
src/lib/definitions/aggregate.js (node-cqrs-domain).

Commands, events and snapshots are plain structured JS objects accessed
through configurable dotted paths (dotty.get / dotty.put).  We model such
objects as flat association lists from the configured path strings to a
small JS-like value type; distinct configured paths are distinct keys.
The state container (AggregateModel, lib/aggregateModel.js, not part of
the given sources) is modelled from the spec where needed.
-/

namespace CqrsDomain

/-- A JS-like value: null/undefined, string, number or boolean. -/
inductive Value where
  | vnull
  | vstr (s : String)
  | vnat (n : Nat)
  | vbool (b : Bool)
deriving DecidableEq, Repr

/-- JS truthiness of a `Value` (null, empty string, 0 and false are falsy). -/
def Value.truthy : Value → Bool
  | .vnull => false
  | .vstr s => s ≠ ""
  | .vnat n => n ≠ 0
  | .vbool b => b

/-- A structured JS object, seen through the configured dotted paths:
an association list from path to value. -/
def Obj : Type := List (String × Value)

instance : DecidableEq Obj := inferInstanceAs (DecidableEq (List (String × Value)))
instance : Repr Obj := inferInstanceAs (Repr (List (String × Value)))
instance : Membership (String × Value) Obj := inferInstanceAs (Membership (String × Value) (List (String × Value)))

/-- Model of dotty.get: the value stored at a path, if any. -/
def Obj.get : Obj → String → Option Value
  | [], _ => none
  | (k1, v1) :: rest, k => if k1 = k then some v1 else Obj.get rest k

/-- Model of dotty.put: overwrite the value at a path, appending if absent. -/
def Obj.put : Obj → String → Value → Obj
  | [], k, v => [(k, v)]
  | (k1, v1) :: rest, k, v =>
      if k1 = k then (k, v) :: rest else (k1, v1) :: Obj.put rest k v

/-- Truthiness of a dotty.get result (undefined is falsy). -/
def truthyOpt : Option Value → Bool
  | none => false
  | some v => v.truthy

/-- Errors surfaced by the engine.  External collaborator failures
(preconditions, business rules, the id generator) are opaque and carried
as `external` codes. -/
inductive Err where
  | noCommandName
  | commandNotFound
  | noEventName
  | eventNotFound
  | invalidName
  | invalidVersion
  | noSnapshotConversion
  | external (n : Nat)
deriving DecidableEq, Repr

/-- The per-aggregate options bag; `0` models a JS-falsy (unset) option,
mirroring the truthiness tests in the source. -/
structure Options where
  snapshotThreshold : Nat := 0
  snapshotThresholdMs : Nat := 0
deriving DecidableEq, Repr

/-- The default snapshot policy (aggregate.js, isSnapshotNeeded):
an explicit ms threshold, when set, decides by loading time; otherwise the
number of loaded events is compared against the count threshold
(100 unless options.snapshotThreshold is set). -/
def isSnapshotNeededDefault (opts : Options) (loadingTime : Nat)
    (events : List Obj) (_stateData : Obj) : Bool :=
  let snapshotThreshold := if opts.snapshotThreshold ≠ 0 then opts.snapshotThreshold else 100
  if opts.snapshotThresholdMs ≠ 0 then
    decide (loadingTime ≥ opts.snapshotThresholdMs)
  else
    decide (events.length ≥ snapshotThreshold)

/-- The configured logical paths for reading/writing command objects
(the aggregate's definitions.command table). -/
structure CommandFieldDefs where
  name : String
  id : String
  version : Option String := none
  meta : Option String := none
  aggregate : Option String := none
  context : Option String := none
deriving DecidableEq, Repr

/-- The configured logical paths for reading/writing event objects
(the aggregate's definitions.event table). -/
structure EventFieldDefs where
  name : String
  payload : String
  id : String
  revision : String
  aggregateId : String
  correlationId : String
  version : Option String := none
  meta : Option String := none
  aggregate : Option String := none
  context : Option String := none
deriving DecidableEq, Repr

/-- The field-mapping table injected into the aggregate. -/
structure Definitions where
  command : CommandFieldDefs
  event : EventFieldDefs
deriving DecidableEq, Repr

/-- Modelled from the spec: the state container (AggregateModel,
lib/aggregateModel.js, which is not among the given sources): identity,
revision counter, the field bag and the uncommitted-event buffer. -/
structure AggregateModel where
  id : String
  revision : Nat := 0
  attributes : Obj := []
  uncommittedEvents : List Obj := []
deriving DecidableEq, Repr

/-- Modelled from the spec: set merges the given fields into the bag. -/
def AggregateModel.set (m : AggregateModel) (data : Obj) : AggregateModel :=
  { m with attributes := data.foldl (fun a kv => Obj.put a kv.1 kv.2) m.attributes }

/-- Modelled from the spec: plain mutator on the revision counter. -/
def AggregateModel.setRevision (m : AggregateModel) (r : Nat) : AggregateModel :=
  { m with revision := r }

/-- Modelled from the spec: append to the uncommitted-event buffer. -/
def AggregateModel.addUncommittedEvent (m : AggregateModel) (e : Obj) : AggregateModel :=
  { m with uncommittedEvents := m.uncommittedEvents ++ [e] }

/-- Modelled from the spec: clear the uncommitted-event buffer. -/
def AggregateModel.clearUncommittedEvents (m : AggregateModel) : AggregateModel :=
  { m with uncommittedEvents := [] }

/-- Modelled from the spec: replace the field bag wholesale (rollback). -/
def AggregateModel.reset (m : AggregateModel) (data : Obj) : AggregateModel :=
  { m with attributes := data }

/-- Modelled from the spec: snapshot of the current field bag. -/
def AggregateModel.toJSON (m : AggregateModel) : Obj :=
  m.attributes

/-- The argument shapes of the apply capability: apply(name, payload) or
apply(eventObject); apply(name) is the named form with a falsy payload. -/
inductive ApplyArg where
  | named (name : String) (payload : Value)
  | evtObj (e : Obj)

/-- An Event definition (external collaborator): its apply operation
mutates the state container's field bag through the mutation gate. -/
structure EventDef where
  name : String
  version : Nat := 0
  applyFn : Obj → Obj → Obj

/-- A Command definition (external collaborator): its own precondition
check, and its handler expressed as the sequence of applies it issues. -/
structure Command where
  name : String
  version : Nat := 0
  checkPre : Obj → AggregateModel → Option Err := fun _ _ => none
  handleApplies : Obj → AggregateModel → List ApplyArg := fun _ _ => []

/-- A PreCondition definition: priority, its error decision, and the
write it performs on the command object it is handed. -/
structure PreCondition where
  name : String
  priority : Int := 0
  checkErr : Obj → AggregateModel → Option Err := fun _ _ => none
  checkWrite : Obj → Obj := fun c => c

/-- A BusinessRule definition: check(changed, previous, events, command). -/
structure BusinessRule where
  name : String
  priority : Int := 0
  check : AggregateModel → AggregateModel → List Obj → Obj → Option Err := fun _ _ _ _ => none

/-- A CommandHandler registration, addressable by (name, version). -/
structure CommandHandler where
  name : String
  version : Nat := 0
deriving DecidableEq, Repr

/-- The aggregate definition: identity, field mappings, registries,
snapshot conversions, the injected id generator and options.  getNewId is
indexed by the position of the event whose id is being generated, giving
each outstanding generation an independent outcome. -/
structure Aggregate where
  name : String
  version : Nat := 0
  contextName : String := ""
  defs : Definitions
  commands : List Command := []
  events : List EventDef := []
  businessRules : List BusinessRule := []
  preConditions : List PreCondition := []
  commandHandlers : List CommandHandler := []
  defaultCommandHandler : CommandHandler := { name := "defaultCommandHandler" }
  snapshotConversions : Nat → Option (Obj → AggregateModel → AggregateModel) := fun _ => none
  getNewId : Nat → Except Err String := fun _ => Except.ok ""
  options : Options := {}
  snapshotNeedFn : Option (Nat → List Obj → Obj → Bool) := none

/-- The snapshot policy in force: an override installed through
defineSnapshotNeed, else the default one over the aggregate's options. -/
def Aggregate.isSnapshotNeeded (a : Aggregate) : Nat → List Obj → Obj → Bool :=
  match a.snapshotNeedFn with
  | some fn => fn
  | none => isSnapshotNeededDefault a.options

/-- getCommand: exact (name, version) match among registered commands. -/
def getCommand (a : Aggregate) (name : String) (version : Nat) : Option Command :=
  a.commands.find? (fun c => c.name == name && c.version == version)

/-- getEvent: exact (name, version) match among registered events. -/
def getEvent (a : Aggregate) (name : String) (version : Nat) : Option EventDef :=
  a.events.find? (fun e => e.name == name && e.version == version)

/-- getCommandHandler: rejects an empty (JS-falsy) name; otherwise the
exact (name, version) match, falling back to the default command handler.
A missing version argument defaults to 0. -/
def getCommandHandler (a : Aggregate) (name : String) (version : Option Nat) :
    Except Err CommandHandler :=
  if name = "" then Except.error Err.invalidName
  else
    match a.commandHandlers.find? (fun hd => hd.name == name && hd.version == version.getD 0) with
    | some hd => Except.ok hd
    | none => Except.ok a.defaultCommandHandler

/-- Version lookup at an optionally configured path; an absent path,
absent value or JS-falsy non-number reads as version 0 (`version || 0`). -/
def versionAt (path : Option String) (o : Obj) : Nat :=
  match path with
  | none => 0
  | some p =>
    match Obj.get o p with
    | some (Value.vnat n) => n
    | _ => 0

/-- The argument of the replay operation apply(events, model): a missing
(null/undefined) argument, a single event object, or an array. -/
inductive EventsArg where
  | noEvents
  | single (e : Obj)
  | multiple (es : List Obj)

/-- The per-event body of the replay operation: resolve the event name
(JS-falsy name fails), resolve the Event definition by (name, version) and
invoke its apply; returns the model and a trace of the (name, version)
pairs of the Event definitions invoked. -/
def applyList (a : Aggregate) : List Obj → AggregateModel →
    Except Err (AggregateModel × List (String × Nat))
  | [], m => Except.ok (m, [])
  | e :: rest, m =>
    match Obj.get e a.defs.event.name with
    | some (Value.vstr n) =>
      if n = "" then Except.error Err.noEventName
      else
        match getEvent a n (versionAt a.defs.event.version e) with
        | none => Except.error Err.eventNotFound
        | some ed =>
          match applyList a rest { m with attributes := ed.applyFn e m.attributes } with
          | Except.error er => Except.error er
          | Except.ok (m2, tr) => Except.ok (m2, (n, versionAt a.defs.event.version e) :: tr)
    | some v => if v.truthy then Except.error Err.invalidName else Except.error Err.noEventName
    | none => Except.error Err.noEventName

/-- The replay operation apply(events, model) of the aggregate: returns
immediately on a missing events argument, wraps a single event into an
array, then applies each event in order. -/
def Aggregate.applyEvents (a : Aggregate) (arg : EventsArg) (m : AggregateModel) :
    Except Err (AggregateModel × List (String × Nat)) :=
  match arg with
  | EventsArg.noEvents => Except.ok (m, [])
  | EventsArg.single e => applyList a [e] m
  | EventsArg.multiple es => applyList a es m

/-- applyHelper lines 63-76: the base event envelope from the apply
arguments: apply(name) stores the name; apply(name, payload) stores name
and payload (a JS-falsy payload counts as absent); apply(evt) takes the
structured object as is. -/
def baseEvt (a : Aggregate) (arg : ApplyArg) : Obj :=
  match arg with
  | ApplyArg.named n p =>
    if p.truthy then Obj.put (Obj.put [] a.defs.event.name (Value.vstr n)) a.defs.event.payload p
    else Obj.put [] a.defs.event.name (Value.vstr n)
  | ApplyArg.evtObj e => e

/-- applyHelper lines 78-80: copy meta from the command when both the
command and event meta paths are configured. -/
def stampMeta (a : Aggregate) (cmd evt : Obj) : Obj :=
  match a.defs.event.meta, a.defs.command.meta with
  | some pe, some pc => Obj.put evt pe ((Obj.get cmd pc).getD Value.vnull)
  | _, _ => evt

/-- applyHelper lines 63-86: the event envelope after meta copy and the
revision, aggregateId and correlationId stamps. -/
def stampEvt (a : Aggregate) (cmd : Obj) (arg : ApplyArg) (aggId : String) (revision : Nat) : Obj :=
  Obj.put
    (Obj.put
      (Obj.put (stampMeta a cmd (baseEvt a arg)) a.defs.event.revision (Value.vnat revision))
      a.defs.event.aggregateId (Value.vstr aggId))
    a.defs.event.correlationId ((Obj.get cmd a.defs.command.id).getD Value.vnull)

/-- The reduction step of the latest-version search (applyHelper lines
92-102): keep the running maximum, considering only Event definitions
whose name equals the event's stored name value. -/
def maxVersionStep (nameVal : Option Value) (res : Nat) (e : EventDef) : Nat :=
  if some (Value.vstr e.name) = nameVal then
    (if e.version > res then e.version else res)
  else res

/-- applyHelper lines 92-102: the latest registered version among Event
definitions whose name equals the event's stored name value. -/
def maxEventVersion (evts : List EventDef) (nameVal : Option Value) : Nat :=
  evts.foldl (maxVersionStep nameVal) 0

/-- applyHelper lines 88-105: when an event version path is configured and
the constructed event has no value there yet, back-fill the latest
registered version for its name. -/
def inferVersion (a : Aggregate) (evt : Obj) : Obj :=
  match a.defs.event.version with
  | none => evt
  | some p =>
    if (Obj.get evt p).isSome then evt
    else Obj.put evt p (Value.vnat (maxEventVersion a.events (Obj.get evt a.defs.event.name)))

/-- applyHelper lines 107-110: stamp the aggregate name from the command
when both paths are configured, falling back to the definition's name. -/
def stampAgg (a : Aggregate) (cmd : Obj) (evt : Obj) : Obj :=
  match a.defs.event.aggregate, a.defs.command.aggregate with
  | some pe, some pc =>
    Obj.put evt pe
      (if ((Obj.get cmd pc).getD Value.vnull).truthy then (Obj.get cmd pc).getD Value.vnull
       else Value.vstr a.name)
  | _, _ => evt

/-- applyHelper lines 112-115: stamp the context name from the command
when both paths are configured, falling back to the context's name. -/
def stampCtx (a : Aggregate) (cmd : Obj) (evt : Obj) : Obj :=
  match a.defs.event.context, a.defs.command.context with
  | some pe, some pc =>
    Obj.put evt pe
      (if ((Obj.get cmd pc).getD Value.vnull).truthy then (Obj.get cmd pc).getD Value.vnull
       else Value.vstr a.contextName)
  | _, _ => evt

/-- applyHelper lines 107-115: the aggregate then the context stamp. -/
def stampAggCtx (a : Aggregate) (cmd : Obj) (evt : Obj) : Obj :=
  stampCtx a cmd (stampAgg a cmd evt)

/-- The complete event built by one invocation of the apply capability,
stamped with revision one above the model's current revision. -/
def builtEvt (a : Aggregate) (cmd : Obj) (m : AggregateModel) (arg : ApplyArg) : Obj :=
  stampAggCtx a cmd (inferVersion a (stampEvt a cmd arg m.id (m.revision + 1)))

/-- One invocation of the apply capability (applyHelper): build the event,
advance the model's revision, append the event to the uncommitted buffer,
then immediately apply it through its registered Event definition. -/
def applyOne (a : Aggregate) (cmd : Obj) (arg : ApplyArg) (m : AggregateModel) :
    Except Err AggregateModel :=
  match applyList a [builtEvt a cmd m arg]
      ((m.setRevision (m.revision + 1)).addUncommittedEvent (builtEvt a cmd m arg)) with
  | Except.error e => Except.error e
  | Except.ok mp => Except.ok mp.1

/-- A sequence of apply-capability invocations issued by a command handler
during one handle call. -/
def applyMany (a : Aggregate) (cmd : Obj) : List ApplyArg → AggregateModel →
    Except Err AggregateModel
  | [], m => Except.ok m
  | arg :: rest, m =>
    match applyOne a cmd arg m with
    | Except.error e => Except.error e
    | Except.ok m1 => applyMany a cmd rest m1

/-- Configuration sanity: no other stamped event path aliases the event
revision path (distinct configured paths are distinct keys). -/
def RevisionPathIsolated (d : Definitions) : Prop :=
  d.event.aggregateId ≠ d.event.revision ∧
  d.event.correlationId ≠ d.event.revision ∧
  (∀ q, d.event.aggregate = some q → q ≠ d.event.revision) ∧
  (∀ q, d.event.context = some q → q ≠ d.event.revision)

/-- Ascending insertion by priority, placing the new element after equal
priorities (the observable effect of the stable lodash sortBy). -/
def insertByPriority (pc : PreCondition) : List PreCondition → List PreCondition
  | [] => [pc]
  | q :: rest =>
    if pc.priority < q.priority then pc :: q :: rest else q :: insertByPriority pc rest

/-- Ascending sort of preconditions by priority (insertion sort). -/
def sortByPriority (l : List PreCondition) : List PreCondition :=
  l.foldr insertByPriority []

/-- addPreCondition: push the new precondition and re-sort the list by
ascending priority.  (The reference-identity de-duplication of the source
has no counterpart under value semantics: a skipped duplicate leaves the
list unchanged, hence sorted.) -/
def addPreConditionList (l : List PreCondition) (pc : PreCondition) : List PreCondition :=
  sortByPriority (l ++ [pc])

/-- checkAggregatePreConditions: run each precondition's check against the
command, sequentially in list order, stopping at the first error; also
returns the priorities of the preconditions that ran. -/
def runPreConditions : List PreCondition → Obj → AggregateModel → Option Err × List Int
  | [], _, _ => (none, [])
  | pc :: rest, cmd, m =>
    match pc.checkErr cmd m with
    | some e => (some e, [pc.priority])
    | none =>
      let r := runPreConditions rest cmd m
      (r.1, pc.priority :: r.2)

/-- The outcome of checkPreConditions: a synchronous throw (resolution
failure inside the callback), an error passed to the callback, or success. -/
inductive PreResult where
  | thrown (e : Err)
  | err (e : Err)
  | ok
deriving DecidableEq, Repr

/-- Command resolution shared by checkPreConditions and handle: read the
command name (a JS-falsy name is the missing-name error; a truthy
non-string name makes getCommand reject it), read the version, and look
the Command definition up. -/
def resolveCommand (a : Aggregate) (cmd : Obj) : Except Err Command :=
  match Obj.get cmd a.defs.command.name with
  | some (Value.vstr n) =>
    if n = "" then Except.error Err.noCommandName
    else
      match getCommand a n (versionAt a.defs.command.version cmd) with
      | some c => Except.ok c
      | none => Except.error Err.commandNotFound
  | some v => if v.truthy then Except.error Err.invalidName else Except.error Err.noCommandName
  | none => Except.error Err.noCommandName

/-- The command-level tier of checkPreConditions: re-resolve the Command
definition (resolution failures are thrown) and delegate to its own
checkPreConditions. -/
def commandPreCheck (a : Aggregate) (cmd : Obj) (m : AggregateModel) : PreResult :=
  match resolveCommand a cmd with
  | Except.error e => PreResult.thrown e
  | Except.ok c =>
    match c.checkPre cmd m with
    | some e => PreResult.err e
    | none => PreResult.ok

/-- checkPreConditions: the aggregate-level preconditions first
(short-circuiting on the first error), then the command's own check. -/
def checkPreConditions (a : Aggregate) (cmd : Obj) (m : AggregateModel) : PreResult :=
  match (runPreConditions a.preConditions cmd m).1 with
  | some e => PreResult.err e
  | none => commandPreCheck a cmd m

/-- A heap of command objects addressed by index, making the aliasing
behavior of the cloneDeep in checkAggregatePreConditions observable. -/
abbrev Heap : Type := List Obj

/-- Read a heap cell. -/
def heapGet (h : Heap) (r : Nat) : Obj := h.getD r []

/-- Overwrite a heap cell. -/
def heapSet (h : Heap) (r : Nat) (v : Obj) : Heap := h.set r v

/-- Allocate a fresh cell holding v; returns the heap and the new index. -/
def heapAlloc (h : Heap) (v : Obj) : Heap × Nat := (h ++ [v], h.length)

/-- checkAggregatePreConditions over the heap: each precondition receives a
fresh deep copy of the original command cell, may write to that copy, and
decides; the chain stops at the first error.  Also returns, in order, the
command values the checks received. -/
def runPreConditionsHeap : List PreCondition → Heap → Nat → AggregateModel →
    Heap × Option Err × List Obj
  | [], h, _, _ => (h, none, [])
  | pc :: rest, h, r, m =>
    let al := heapAlloc h (heapGet h r)
    let clone := heapGet al.1 al.2
    let h2 := heapSet al.1 al.2 (pc.checkWrite clone)
    match pc.checkErr clone m with
    | some e => (h2, some e, [clone])
    | none =>
      let res := runPreConditionsHeap rest h2 r m
      (res.1, res.2.1, clone :: res.2.2)

/-- The per-event id back-fill (handle lines 565-581): an event with a
JS-truthy value at the event id path is left alone; otherwise the injected
generator is asked for a fresh id for this position. -/
def assignOne (a : Aggregate) (gen : Nat → Except Err String) (i : Nat) (e : Obj) :
    Obj × Option Err :=
  if truthyOpt (Obj.get e a.defs.event.id) then (e, none)
  else
    match gen i with
    | Except.error er => (e, some er)
    | Except.ok newId => (Obj.put e a.defs.event.id (Value.vstr newId), none)

/-- The id-assignment fan-out over the uncommitted events (async.each):
every event's generation is independent; the step's overall error is the
first (by position) generation failure, with the other events' results
still written into the buffer. -/
def assignIdsFrom (a : Aggregate) (gen : Nat → Except Err String) :
    Nat → List Obj → List Obj × Option Err
  | _, [] => ([], none)
  | i, e :: rest =>
    let r := assignOne a gen i e
    let rr := assignIdsFrom a gen (i + 1) rest
    (r.1 :: rr.1,
      match r.2 with
      | some er => some er
      | none => rr.2)

/-- The id-assignment step of handle over the whole uncommitted buffer. -/
def assignIds (a : Aggregate) (gen : Nat → Except Err String) (es : List Obj) :
    List Obj × Option Err :=
  assignIdsFrom a gen 0 es

/-- checkBusinessRules: run the registered rules sequentially in list
order over (changed, previous, events, command), stopping at the first
error. -/
def runBusinessRules : List BusinessRule → AggregateModel → AggregateModel → List Obj →
    Obj → Option Err
  | [], _, _, _, _ => none
  | r :: rest, changed, previous, evts, cmd =>
    match r.check changed previous evts cmd with
    | some e => some e
    | none => runBusinessRules rest changed previous evts cmd

/-- The aggregate's checkBusinessRules over its registered rules. -/
def Aggregate.checkBusinessRules (a : Aggregate) (changed previous : AggregateModel)
    (evts : List Obj) (cmd : Obj) : Option Err :=
  runBusinessRules a.businessRules changed previous evts cmd

/-- The observable outcome of handle: a synchronous throw, the completion
callback invoked with an error (paired with the model's state at that
point), or success. -/
inductive HandleOutcome where
  | thrown (e : Err)
  | callbackErr (e : Err) (m : AggregateModel)
  | ok (m : AggregateModel)
deriving DecidableEq, Repr

/-- handle after successful command resolution: preconditions (failure
surfaces with the model untouched), the previous-model snapshot, the
handler's applies, the id back-fill (failure surfaces without clean-up),
the business rules, and the rules-failure rollback (field bag restored
from the snapshot, uncommitted buffer cleared). -/
def handleResolved (a : Aggregate) (m : AggregateModel) (cmd : Obj) (c : Command) :
    HandleOutcome :=
  match checkPreConditions a cmd m with
  | PreResult.thrown e => HandleOutcome.thrown e
  | PreResult.err e => HandleOutcome.callbackErr e m
  | PreResult.ok =>
    match applyMany a cmd (c.handleApplies cmd m) m with
    | Except.error e => HandleOutcome.thrown e
    | Except.ok m1 =>
      match assignIds a a.getNewId m1.uncommittedEvents with
      | (es2, some e) => HandleOutcome.callbackErr e { m1 with uncommittedEvents := es2 }
      | (es2, none) =>
        match a.checkBusinessRules { m1 with uncommittedEvents := es2 }
            (AggregateModel.mk m.id 0 m.attributes []) es2 cmd with
        | some e => HandleOutcome.callbackErr e
            { m1 with attributes := m.attributes, uncommittedEvents := [] }
        | none => HandleOutcome.ok { m1 with uncommittedEvents := es2 }

/-- handle(model, cmd, callback): command resolution first (a missing name
or unknown command goes to the callback, a truthy non-string name throws),
then the resolved pipeline. -/
def handle (a : Aggregate) (m : AggregateModel) (cmd : Obj) : HandleOutcome :=
  match resolveCommand a cmd with
  | Except.error Err.invalidName => HandleOutcome.thrown Err.invalidName
  | Except.error e => HandleOutcome.callbackErr e m
  | Except.ok c => handleResolved a m cmd c

/-- A snapshot record: the definition version it was produced under, the
event-stream revision it corresponds to, and the raw state bag. -/
structure Snapshot where
  version : Nat
  revision : Nat
  data : Obj
deriving DecidableEq, Repr

/-- The snapshot phase of loadFromHistory (lines 658-674): same-version
data is assigned directly into the model; an older version goes through
the registered conversion for that version (a configuration error when
none is registered) and flags that a fresh snapshot is due; in either
non-failing case the revision is set to the snapshot's stored revision. -/
def loadSnapshotPhase (a : Aggregate) (m : AggregateModel) :
    Option Snapshot → Except Err (AggregateModel × Bool)
  | none => Except.ok (m, false)
  | some s =>
    if s.version = a.version then
      Except.ok ((m.set s.data).setRevision s.revision, false)
    else
      match a.snapshotConversions s.version with
      | none => Except.error Err.noSnapshotConversion
      | some conv => Except.ok ((conv s.data m).setRevision s.revision, true)

/-- The maximum revision value carried by the loaded events (lines
679-685); missing or non-numeric revisions never beat the running
maximum. -/
def maxRevisionOf (a : Aggregate) (es : List Obj) : Nat :=
  es.foldl
    (fun res e =>
      match Obj.get e a.defs.event.revision with
      | some (Value.vnat r) => if r > res then r else res
      | _ => res)
    0

/-- loadFromHistory (lines 653-697): the snapshot phase, then the replay
of the loaded events, the revision set to the events' maximum stored
revision, and the snapshot-policy consultation when the snapshot phase
did not already flag staleness. -/
def loadFromHistory (a : Aggregate) (m : AggregateModel) (snapshot : Option Snapshot)
    (events : Option (List Obj)) (loadingTime : Nat) :
    Except Err (AggregateModel × Bool) :=
  match loadSnapshotPhase a m snapshot with
  | Except.error e => Except.error e
  | Except.ok (m1, need1) =>
    match events with
    | some es =>
      if 0 < es.length then
        match applyList a es m1 with
        | Except.error e => Except.error e
        | Except.ok (m2, _) =>
          Except.ok (m2.setRevision (maxRevisionOf a es),
            if need1 then true
            else a.isSnapshotNeeded loadingTime es
              (m2.setRevision (maxRevisionOf a es)).attributes)
      else Except.ok (m1, need1)
    | none => Except.ok (m1, need1)

/-- A field-mapping table reused by the concrete sample aggregates. -/
def sampleDefs : Definitions :=
  { command := { name := "name", id := "id" },
    event := { name := "name", payload := "payload", id := "id", revision := "revision",
               aggregateId := "aggregateId", correlationId := "correlationId" } }

/-- A concrete aggregate with one registered command handler. -/
def aggHandlers : Aggregate :=
  { name := "agg", defs := sampleDefs,
    commandHandlers := [ { name := "cmdA", version := 2 } ],
    defaultCommandHandler := { name := "defaultCommandHandler" } }

/-- The sample field mappings with an event version path configured. -/
def sampleDefsV : Definitions :=
  { command := { name := "name", id := "id" },
    event := { name := "name", payload := "payload", id := "id", revision := "revision",
               aggregateId := "aggregateId", correlationId := "correlationId",
               version := some "version" } }

/-- A sample Event definition body: records field x on the model. -/
def evtApplySetX : Obj → Obj → Obj := fun _ attrs => Obj.put attrs "x" (Value.vnat 1)

/-- A concrete aggregate with several versions registered per event name. -/
def aggVersions : Aggregate :=
  { name := "agg", defs := sampleDefsV,
    events := [ { name := "done", version := 1, applyFn := evtApplySetX },
                { name := "done", version := 3, applyFn := evtApplySetX },
                { name := "other", version := 7, applyFn := evtApplySetX } ] }

/-- A concrete command object named doIt. -/
def cmdDoIt : Obj := [("name", Value.vstr "doIt")]

/-- A fresh concrete state container. -/
def model0 : AggregateModel := { id := "id1" }

/-- The registered Event definition used by the pipeline samples. -/
def evtDefDone : EventDef := { name := "done", applyFn := evtApplySetX }

/-- The registered Command definition used by the pipeline samples: its
handler applies one done event. -/
def cmdDoItDef : Command :=
  { name := "doIt", handleApplies := fun _ _ => [ApplyArg.named "done" Value.vnull] }

/-- A concrete aggregate whose single command emits one event. -/
def aggBase : Aggregate :=
  { name := "agg", defs := sampleDefs, commands := [cmdDoItDef], events := [evtDefDone],
    getNewId := fun _ => Except.ok "gen1" }

/-- A passing sample precondition of priority 1. -/
def pcPass : PreCondition := { name := "pcPass", priority := 1 }

/-- A failing sample precondition of priority 5. -/
def pcFail : PreCondition :=
  { name := "pcFail", priority := 5, checkErr := fun _ _ => some (Err.external 3) }

/-- A sample precondition that scribbles over its command argument. -/
def pcMutating : PreCondition :=
  { name := "pcMutating", priority := 0,
    checkWrite := fun c => Obj.put c "name" (Value.vstr "evil") }

/-- A concrete aggregate with two prioritized preconditions. -/
def aggPre : Aggregate :=
  { name := "agg", defs := sampleDefs, commands := [cmdDoItDef], events := [evtDefDone],
    preConditions := [pcPass, pcFail] }

/-- A concrete aggregate whose injected id generator always fails. -/
def aggGenFail : Aggregate :=
  { name := "agg", defs := sampleDefs, commands := [cmdDoItDef], events := [evtDefDone],
    getNewId := fun _ => Except.error (Err.external 7) }

/-- A sample business rule that always rejects. -/
def ruleFail : BusinessRule :=
  { name := "ruleFail", check := fun _ _ _ _ => some (Err.external 9) }

/-- A concrete aggregate whose single business rule always rejects. -/
def aggRuleFail : Aggregate :=
  { name := "agg", defs := sampleDefs, commands := [cmdDoItDef], events := [evtDefDone],
    businessRules := [ruleFail], getNewId := fun _ => Except.ok "gen1" }

/-- The event emitted by the sample command on a fresh model. -/
def evtDone1 : Obj :=
  [("name", Value.vstr "done"), ("revision", Value.vnat 1),
   ("aggregateId", Value.vstr "id1"), ("correlationId", Value.vnull)]

/-- A fixed sample id generator. -/
def genFixed : Nat → Except Err String := fun _ => Except.ok "gid"

/-- A sample snapshot conversion: merge the old data into the model. -/
def convMerge : Obj → AggregateModel → AggregateModel := fun data m => m.set data

/-- A concrete version-2 aggregate with a conversion registered for
version-1 snapshots only. -/
def aggConv : Aggregate :=
  { name := "agg", version := 2, defs := sampleDefs,
    snapshotConversions := fun v => if v = 1 then some convMerge else none }

/-- A concrete version-1 snapshot at revision 42. -/
def snapOld : Snapshot := { version := 1, revision := 42, data := [("y", Value.vnat 5)] }

end CqrsDomain

namespace CqrsDomain

theorem Obj.get_put_self (o : Obj) (k : String) (v : Value) :
    Obj.get (Obj.put o k v) k = some v := by
  induction o with
  | nil => simp [Obj.put, Obj.get]
  | cons p rest ih =>
      by_cases h : p.1 = k
      · simp [Obj.put, Obj.get, h]
      · simp [Obj.put, Obj.get, h, ih]

theorem Obj.get_put_ne (o : Obj) (k k2 : String) (v : Value) (h : k ≠ k2) :
    Obj.get (Obj.put o k v) k2 = Obj.get o k2 := by
  induction o with
  | nil => simp [Obj.put, Obj.get, h]
  | cons p rest ih =>
      by_cases h1 : p.1 = k
      · simp [Obj.put, Obj.get, h1, h]
      · by_cases h2 : p.1 = k2
        · simp [Obj.put, Obj.get, h1, h2, Ne.symm h]
        · simp [Obj.put, Obj.get, h1, h2, ih]

/-- C2: with the millisecond threshold configured the default snapshot
policy decides by loading time alone; otherwise it compares the number of
loaded events against the count threshold (100 unless overridden by
snapshotThreshold); in particular with no options 150 events yield true
and fewer than 100 yield false. -/
theorem c2_isSnapshotNeeded_default_policy (opts : Options) (loadingTime : Nat)
    (events : List Obj) (stateData : Obj) :
    (opts.snapshotThresholdMs ≠ 0 →
      (isSnapshotNeededDefault opts loadingTime events stateData = true ↔
        loadingTime ≥ opts.snapshotThresholdMs))
    ∧ (opts.snapshotThresholdMs = 0 → opts.snapshotThreshold ≠ 0 →
      (isSnapshotNeededDefault opts loadingTime events stateData = true ↔
        events.length ≥ opts.snapshotThreshold))
    ∧ (opts.snapshotThresholdMs = 0 → opts.snapshotThreshold = 0 →
      (isSnapshotNeededDefault opts loadingTime events stateData = true ↔
        events.length ≥ 100))
    ∧ (events.length = 150 →
        isSnapshotNeededDefault {} loadingTime events stateData = true)
    ∧ (events.length < 100 →
        isSnapshotNeededDefault {} loadingTime events stateData = false) := by
  refine ⟨?_, ?_, ?_, ?_, ?_⟩
  · intro hms
    simp [isSnapshotNeededDefault, hms]
  · intro hms hth
    simp [isSnapshotNeededDefault, hms, hth]
  · intro hms hth
    simp [isSnapshotNeededDefault, hms, hth]
  · intro hlen
    simp [isSnapshotNeededDefault, hlen]
  · intro hlen
    simp [isSnapshotNeededDefault]
    omega

/-- Witness for C2 at concrete inputs. -/
theorem c2_isSnapshotNeeded_default_policy_witness :
    isSnapshotNeededDefault { snapshotThresholdMs := 5 } 7 [] [] = true := by
  have h := c2_isSnapshotNeeded_default_policy { snapshotThresholdMs := 5 } 7 [] []
  exact (h.1 (by decide)).2 (by decide)

/-- C5 counterexample: getCommandHandler can fail: on the empty (JS-falsy)
name it raises the invalid-name configuration error instead of returning a
handler, so the claim as stated (never fails, for every name) is false. -/
theorem c5_counterexample_empty_name :
    getCommandHandler aggHandlers "" none = Except.error Err.invalidName := by
  rfl

/-- C5 amended: for every non-empty name and every version,
getCommandHandler never fails: it returns the registered handler matching
(name, version) exactly (a missing version reading as 0), and returns the
default command handler when no registered handler matches. -/
theorem c5_getCommandHandler_total (a : Aggregate) (name : String) (version : Option Nat)
    (h : name ≠ "") :
    ∃ hd, getCommandHandler a name version = Except.ok hd ∧
      ((hd ∈ a.commandHandlers ∧ hd.name = name ∧ hd.version = version.getD 0) ∨
       ((∀ g ∈ a.commandHandlers, ¬(g.name = name ∧ g.version = version.getD 0)) ∧
        hd = a.defaultCommandHandler)) := by
  unfold getCommandHandler
  simp only [h, if_false]
  cases hf : a.commandHandlers.find? (fun hd => hd.name == name && hd.version == version.getD 0) with
  | none =>
      refine ⟨a.defaultCommandHandler, rfl, Or.inr ⟨?_, rfl⟩⟩
      intro g hg hcon
      have := List.find?_eq_none.mp hf g hg
      simp [hcon.1, hcon.2] at this
  | some hd =>
      refine ⟨hd, rfl, Or.inl ⟨List.mem_of_find?_eq_some hf, ?_⟩⟩
      have := List.find?_some hf
      simpa using this

/-- Witness for C5 at a concrete aggregate and name. -/
theorem c5_getCommandHandler_total_witness :
    ∃ hd, getCommandHandler aggHandlers "cmdA" (some 2) = Except.ok hd ∧
      ((hd ∈ aggHandlers.commandHandlers ∧ hd.name = "cmdA" ∧ hd.version = (some 2).getD 0) ∨
       ((∀ g ∈ aggHandlers.commandHandlers, ¬(g.name = "cmdA" ∧ g.version = (some 2).getD 0)) ∧
        hd = aggHandlers.defaultCommandHandler)) :=
  c5_getCommandHandler_total aggHandlers "cmdA" (some 2) (by decide)

/-- C10: replaying a null/undefined events argument returns normally,
invokes no Event definition (empty trace) and leaves the model unchanged. -/
theorem c10_apply_no_events (a : Aggregate) (m : AggregateModel) :
    a.applyEvents EventsArg.noEvents m = Except.ok (m, []) := by
  rfl

theorem applyList_preserves (a : Aggregate) (es : List Obj) :
    ∀ (m m2 : AggregateModel) (tr : List (String × Nat)),
      applyList a es m = Except.ok (m2, tr) →
      m2.id = m.id ∧ m2.revision = m.revision ∧
        m2.uncommittedEvents = m.uncommittedEvents := by
  induction es with
  | nil =>
      intro m m2 tr h
      simp [applyList] at h
      rw [← h.1]
      exact ⟨rfl, rfl, rfl⟩
  | cons e rest ih =>
      intro m m2 tr h
      simp only [applyList] at h
      split at h
      · split at h
        · simp at h
        · split at h
          · simp at h
          · rename_i ed hev
            cases hrec : applyList a rest
                { m with attributes := ed.applyFn e m.attributes } with
            | error er => rw [hrec] at h; simp at h
            | ok pr =>
                obtain ⟨m3, tr3⟩ := pr
                rw [hrec] at h
                simp at h
                have hp := ih { m with attributes := ed.applyFn e m.attributes } m3 tr3 hrec
                rw [← h.1]
                simpa using hp
      · split at h <;> simp at h
      · simp at h

theorem applyOne_ok_shape (a : Aggregate) (cmd : Obj) (arg : ApplyArg)
    (m m2 : AggregateModel) (h : applyOne a cmd arg m = Except.ok m2) :
    m2.id = m.id ∧ m2.revision = m.revision + 1 ∧
      m2.uncommittedEvents = m.uncommittedEvents ++ [builtEvt a cmd m arg] := by
  unfold applyOne at h
  cases hap : applyList a [builtEvt a cmd m arg]
      ((m.setRevision (m.revision + 1)).addUncommittedEvent (builtEvt a cmd m arg)) with
  | error e => rw [hap] at h; simp at h
  | ok pr =>
      obtain ⟨m3, tr3⟩ := pr
      rw [hap] at h
      simp at h
      obtain ⟨h1, h2, h3⟩ := applyList_preserves a _ _ _ _ hap
      rw [← h]
      simp only [AggregateModel.setRevision, AggregateModel.addUncommittedEvent] at h1 h2 h3
      exact ⟨h1, h2, h3⟩

theorem stampEvt_revision (a : Aggregate) (cmd : Obj) (arg : ApplyArg)
    (aggId : String) (r : Nat)
    (h1 : a.defs.event.aggregateId ≠ a.defs.event.revision)
    (h2 : a.defs.event.correlationId ≠ a.defs.event.revision) :
    Obj.get (stampEvt a cmd arg aggId r) a.defs.event.revision = some (Value.vnat r) := by
  unfold stampEvt
  rw [Obj.get_put_ne _ _ _ _ h2, Obj.get_put_ne _ _ _ _ h1, Obj.get_put_self]

theorem inferVersion_get_isSome (a : Aggregate) (evt : Obj) (q : String)
    (h : (Obj.get evt q).isSome) :
    Obj.get (inferVersion a evt) q = Obj.get evt q := by
  unfold inferVersion
  cases hv : a.defs.event.version with
  | none => rfl
  | some p =>
      by_cases hs : (Obj.get evt p).isSome
      · simp [hs]
      · by_cases hpq : p = q
        · subst hpq; exact absurd h hs
        · simp [hs, Obj.get_put_ne _ _ _ _ hpq]

theorem inferVersion_of_isSome (a : Aggregate) (evt : Obj) (p : String)
    (hp : a.defs.event.version = some p) (h : (Obj.get evt p).isSome) :
    inferVersion a evt = evt := by
  unfold inferVersion
  rw [hp]
  simp [h]

theorem inferVersion_get_none (a : Aggregate) (evt : Obj) (p : String)
    (hp : a.defs.event.version = some p) (h : Obj.get evt p = none) :
    Obj.get (inferVersion a evt) p
      = some (Value.vnat (maxEventVersion a.events (Obj.get evt a.defs.event.name))) := by
  unfold inferVersion
  rw [hp]
  simp [h, Obj.get_put_self]

theorem stampAgg_get_preserve (a : Aggregate) (cmd evt : Obj) (r : String)
    (hAgg : ∀ q, a.defs.event.aggregate = some q → q ≠ r) :
    Obj.get (stampAgg a cmd evt) r = Obj.get evt r := by
  unfold stampAgg
  cases hea : a.defs.event.aggregate with
  | none => cases a.defs.command.aggregate <;> rfl
  | some pe =>
      cases a.defs.command.aggregate with
      | none => rfl
      | some pc => exact Obj.get_put_ne _ _ _ _ (hAgg pe hea)

theorem stampCtx_get_preserve (a : Aggregate) (cmd evt : Obj) (r : String)
    (hCtx : ∀ q, a.defs.event.context = some q → q ≠ r) :
    Obj.get (stampCtx a cmd evt) r = Obj.get evt r := by
  unfold stampCtx
  cases hec : a.defs.event.context with
  | none => cases a.defs.command.context <;> rfl
  | some pe =>
      cases a.defs.command.context with
      | none => rfl
      | some pc => exact Obj.get_put_ne _ _ _ _ (hCtx pe hec)

theorem stampAggCtx_get_preserve (a : Aggregate) (cmd evt : Obj) (r : String)
    (hAgg : ∀ q, a.defs.event.aggregate = some q → q ≠ r)
    (hCtx : ∀ q, a.defs.event.context = some q → q ≠ r) :
    Obj.get (stampAggCtx a cmd evt) r = Obj.get evt r := by
  unfold stampAggCtx
  rw [stampCtx_get_preserve a cmd _ r hCtx, stampAgg_get_preserve a cmd evt r hAgg]

theorem builtEvt_revision (a : Aggregate) (cmd : Obj) (m : AggregateModel) (arg : ApplyArg)
    (hiso : RevisionPathIsolated a.defs) :
    Obj.get (builtEvt a cmd m arg) a.defs.event.revision
      = some (Value.vnat (m.revision + 1)) := by
  obtain ⟨h1, h2, h3, h4⟩ := hiso
  unfold builtEvt
  rw [stampAggCtx_get_preserve a cmd _ _ h3 h4]
  rw [inferVersion_get_isSome]
  · exact stampEvt_revision a cmd arg m.id (m.revision + 1) h1 h2
  · rw [stampEvt_revision a cmd arg m.id (m.revision + 1) h1 h2]
    rfl

theorem maxVersionStep_ge (nv : Option Value) (res : Nat) (e : EventDef) :
    res ≤ maxVersionStep nv res e := by
  unfold maxVersionStep
  split
  · split <;> omega
  · exact Nat.le_refl res

theorem foldl_maxVersionStep_ge (nv : Option Value) (l : List EventDef) :
    ∀ acc : Nat, acc ≤ l.foldl (maxVersionStep nv) acc := by
  induction l with
  | nil => intro acc; exact Nat.le_refl acc
  | cons e rest ih =>
      intro acc
      exact Nat.le_trans (maxVersionStep_ge nv acc e) (ih (maxVersionStep nv acc e))

theorem foldl_maxVersionStep_nomatch (nv : Option Value) (l : List EventDef)
    (h : ∀ e ∈ l, some (Value.vstr e.name) ≠ nv) :
    ∀ acc : Nat, l.foldl (maxVersionStep nv) acc = acc := by
  induction l with
  | nil => intro acc; rfl
  | cons e rest ih =>
      intro acc
      have he : maxVersionStep nv acc e = acc := by
        unfold maxVersionStep
        simp [h e (List.mem_cons_self e rest)]
      simp only [List.foldl_cons, he]
      exact ih (fun q hq => h q (List.mem_cons_of_mem e hq)) acc

theorem foldl_maxVersionStep_bound (nv : Option Value) (l : List EventDef)
    (e : EventDef) (he : e ∈ l) (hn : some (Value.vstr e.name) = nv) :
    ∀ acc : Nat, e.version ≤ l.foldl (maxVersionStep nv) acc := by
  induction l with
  | nil => cases he
  | cons q rest ih =>
      intro acc
      rcases List.mem_cons.mp he with heq | hmem
      · subst heq
        have hstep : e.version ≤ maxVersionStep nv acc e := by
          unfold maxVersionStep
          simp only [hn, if_true]
          split <;> omega
        exact Nat.le_trans hstep (foldl_maxVersionStep_ge nv rest _)
      · exact ih hmem _

theorem foldl_maxVersionStep_attained (nv : Option Value) (l : List EventDef) :
    ∀ acc : Nat, l.foldl (maxVersionStep nv) acc = acc ∨
      ∃ e ∈ l, some (Value.vstr e.name) = nv ∧
        e.version = l.foldl (maxVersionStep nv) acc := by
  induction l with
  | nil => intro acc; exact Or.inl rfl
  | cons q rest ih =>
      intro acc
      by_cases hq : maxVersionStep nv acc q = acc
      · simp only [List.foldl_cons, hq]
        rcases ih acc with h | ⟨e, he, hn, hv⟩
        · exact Or.inl h
        · exact Or.inr ⟨e, List.mem_cons_of_mem q he, hn, hv⟩
      · have hqn : some (Value.vstr q.name) = nv ∧ maxVersionStep nv acc q = q.version := by
          unfold maxVersionStep at hq ⊢
          by_cases hm : some (Value.vstr q.name) = nv
          · simp only [hm, if_true] at hq ⊢
            refine ⟨by trivial, ?_⟩
            split at hq <;> [skip; exact absurd rfl hq]
            split <;> omega
          · simp [hm] at hq
        simp only [List.foldl_cons]
        rcases ih (maxVersionStep nv acc q) with h | ⟨e, he, hn, hv⟩
        · exact Or.inr ⟨q, List.mem_cons_self q rest, hqn.1, by rw [h, hqn.2]⟩
        · exact Or.inr ⟨e, List.mem_cons_of_mem q he, hn, hv⟩

/-- C8: for every event emitted through the apply capability while an
event version path is configured (and not aliased by the aggregate or
context paths): a value already present at the version path on the
constructed event is kept; otherwise the emitted event carries the maximum
registered version among Event definitions with the event's name, with 0
when none is registered (the maximum is an upper bound and is attained
when any definition matches). -/
theorem c8_event_version_backfill (a : Aggregate) (cmd : Obj) (m : AggregateModel)
    (arg : ApplyArg) (p : String)
    (hp : a.defs.event.version = some p)
    (hAgg : ∀ q, a.defs.event.aggregate = some q → q ≠ p)
    (hCtx : ∀ q, a.defs.event.context = some q → q ≠ p) :
    (∀ m2, applyOne a cmd arg m = Except.ok m2 →
      m2.uncommittedEvents = m.uncommittedEvents ++ [builtEvt a cmd m arg])
    ∧ ((Obj.get (stampEvt a cmd arg m.id (m.revision + 1)) p).isSome →
      Obj.get (builtEvt a cmd m arg) p
        = Obj.get (stampEvt a cmd arg m.id (m.revision + 1)) p)
    ∧ (Obj.get (stampEvt a cmd arg m.id (m.revision + 1)) p = none →
      Obj.get (builtEvt a cmd m arg) p
        = some (Value.vnat (maxEventVersion a.events
            (Obj.get (stampEvt a cmd arg m.id (m.revision + 1)) a.defs.event.name))))
    ∧ (∀ nv, (∀ ed ∈ a.events, some (Value.vstr ed.name) ≠ nv) →
        maxEventVersion a.events nv = 0)
    ∧ (∀ nv ed, ed ∈ a.events → some (Value.vstr ed.name) = nv →
        ed.version ≤ maxEventVersion a.events nv)
    ∧ (∀ nv, maxEventVersion a.events nv = 0 ∨
        ∃ ed ∈ a.events, some (Value.vstr ed.name) = nv ∧
          ed.version = maxEventVersion a.events nv) := by
  refine ⟨?_, ?_, ?_, ?_, ?_, ?_⟩
  · intro m2 h
    exact (applyOne_ok_shape a cmd arg m m2 h).2.2
  · intro hs
    unfold builtEvt
    rw [stampAggCtx_get_preserve a cmd _ _ (fun q hq => hAgg q hq) (fun q hq => hCtx q hq)]
    rw [inferVersion_of_isSome a _ p hp hs]
  · intro hnone
    unfold builtEvt
    rw [stampAggCtx_get_preserve a cmd _ _ (fun q hq => hAgg q hq) (fun q hq => hCtx q hq)]
    exact inferVersion_get_none a _ p hp hnone
  · intro nv h
    exact foldl_maxVersionStep_nomatch nv a.events h 0
  · intro nv ed hed hn
    exact foldl_maxVersionStep_bound nv a.events ed hed hn 0
  · intro nv
    exact foldl_maxVersionStep_attained nv a.events 0

/-- Witness for C8: with versions 1 and 3 registered for the name done,
an emitted done event without an explicit version carries version 3. -/
theorem c8_event_version_backfill_witness :
    Obj.get (builtEvt aggVersions cmdDoIt model0 (ApplyArg.named "done" Value.vnull)) "version"
      = some (Value.vnat 3) := by
  have h := c8_event_version_backfill aggVersions cmdDoIt model0
    (ApplyArg.named "done" Value.vnull) "version" rfl
    (fun q hq => by simp [aggVersions, sampleDefsV] at hq)
    (fun q hq => by simp [aggVersions, sampleDefsV] at hq)
  have h3 := h.2.2.1 (by decide)
  rw [h3]
  decide

/-- C3: for every sequence of successful apply-capability invocations
within one handle call (revision path not aliased by another stamp path):
starting from revision r, the model's revision after all n applies is
r + n, each prefix of k applies leaves revision r + k, and the emitted
events carry stamped revisions r + 1, ..., r + n in order. -/
theorem c3_revision_monotonicity (a : Aggregate) (cmd : Obj) (args : List ApplyArg)
    (m m2 : AggregateModel) (hiso : RevisionPathIsolated a.defs)
    (hok : applyMany a cmd args m = Except.ok m2) :
    m2.revision = m.revision + args.length
    ∧ (∃ emitted, m2.uncommittedEvents = m.uncommittedEvents ++ emitted
        ∧ emitted.map (fun e => Obj.get e a.defs.event.revision)
          = (List.range args.length).map (fun k => some (Value.vnat (m.revision + k + 1))))
    ∧ (∀ k, k ≤ args.length → ∃ mk, applyMany a cmd (args.take k) m = Except.ok mk
        ∧ mk.revision = m.revision + k) := by
  induction args generalizing m with
  | nil =>
      simp [applyMany] at hok
      refine ⟨by rw [← hok]; simp, ⟨[], by rw [← hok]; simp, by simp⟩, ?_⟩
      intro k hk
      have hk0 : k = 0 := Nat.le_zero.mp hk
      subst hk0
      exact ⟨m, by simp [applyMany], by simp⟩
  | cons arg rest ih =>
      simp only [applyMany] at hok
      cases h1 : applyOne a cmd arg m with
      | error e => rw [h1] at hok; simp at hok
      | ok m1 =>
          rw [h1] at hok
          obtain ⟨hid, hrev, hunc⟩ := applyOne_ok_shape a cmd arg m m1 h1
          have hstamp := builtEvt_revision a cmd m arg hiso
          obtain ⟨ihrev, ⟨em, hem, hemmap⟩, ihtake⟩ := ih m1 hok
          refine ⟨?_, ⟨builtEvt a cmd m arg :: em, ?_, ?_⟩, ?_⟩
          · rw [ihrev, hrev]
            simp [Nat.add_assoc, Nat.add_comm 1 rest.length]
          · rw [hem, hunc]
            simp
          · simp only [List.map_cons, hstamp, List.length_cons]
            rw [List.range_succ_eq_map]
            simp only [List.map_cons, List.map_map]
            congr 1
            rw [hemmap]
            apply List.map_congr_left
            intro k _
            simp only [Function.comp_apply]
            have : m1.revision + k + 1 = m.revision + (k + 1) + 1 := by omega
            rw [this]
          · intro k hk
            cases k with
            | zero => exact ⟨m, by simp [applyMany], by simp⟩
            | succ j =>
                have hj : j ≤ rest.length := Nat.succ_le_succ_iff.mp hk
                obtain ⟨mk, hmk, hmkrev⟩ := ihtake j hj
                refine ⟨mk, ?_, ?_⟩
                · simp only [List.take_succ_cons, applyMany, h1]
                  exact hmk
                · rw [hmkrev, hrev]
                  omega

/-- Witness for C3: one successful apply on a fresh model yields revision
1, one emitted event stamped with revision 1, and the same for the prefix. -/
theorem c3_revision_monotonicity_witness :
    (AggregateModel.mk "id1" 1 [("x", Value.vnat 1)]
        [[("name", Value.vstr "done"), ("revision", Value.vnat 1),
          ("aggregateId", Value.vstr "id1"), ("correlationId", Value.vnull)]]).revision
      = model0.revision + [ApplyArg.named "done" Value.vnull].length := by
  refine (c3_revision_monotonicity aggBase cmdDoIt [ApplyArg.named "done" Value.vnull]
    model0 _ ?_ ?_).1
  · refine ⟨by decide, by decide, ?_, ?_⟩
    · intro q hq
      simp [aggBase, sampleDefs] at hq
    · intro q hq
      simp [aggBase, sampleDefs] at hq
  · rfl

theorem mem_insertByPriority (pc x : PreCondition) (l : List PreCondition) :
    x ∈ insertByPriority pc l ↔ x = pc ∨ x ∈ l := by
  induction l with
  | nil => simp [insertByPriority]
  | cons q rest ih =>
      unfold insertByPriority
      split
      · simp [List.mem_cons]
      · simp [List.mem_cons, ih]
        tauto

theorem pairwise_insertByPriority (pc : PreCondition) (l : List PreCondition)
    (hl : List.Pairwise (fun p q => p.priority ≤ q.priority) l) :
    List.Pairwise (fun p q => p.priority ≤ q.priority) (insertByPriority pc l) := by
  induction l with
  | nil => simp [insertByPriority]
  | cons q rest ih =>
      rcases List.pairwise_cons.mp hl with ⟨hq, hrest⟩
      unfold insertByPriority
      split
      · rename_i hlt
        refine List.pairwise_cons.mpr ⟨?_, hl⟩
        intro x hx
        rcases List.mem_cons.mp hx with rfl | hx2
        · exact le_of_lt hlt
        · exact le_trans (le_of_lt hlt) (hq x hx2)
      · rename_i hge
        refine List.pairwise_cons.mpr ⟨?_, ih hrest⟩
        intro x hx
        rcases (mem_insertByPriority pc x rest).mp hx with rfl | hx2
        · exact Int.not_lt.mp hge
        · exact hq x hx2

theorem pairwise_sortByPriority (l : List PreCondition) :
    List.Pairwise (fun p q => p.priority ≤ q.priority) (sortByPriority l) := by
  induction l with
  | nil => exact List.Pairwise.nil
  | cons pc rest ih => exact pairwise_insertByPriority pc _ ih

theorem runPreConditions_trace_take (pcs : List PreCondition) (cmd : Obj)
    (m : AggregateModel) :
    ∃ n, (runPreConditions pcs cmd m).2 = (pcs.take n).map (fun q => q.priority) := by
  induction pcs with
  | nil => exact ⟨0, rfl⟩
  | cons pc rest ih =>
      unfold runPreConditions
      cases hc : pc.checkErr cmd m with
      | some e => exact ⟨1, by simp⟩
      | none =>
          obtain ⟨n, hn⟩ := ih
          exact ⟨n + 1, by simp [hn]⟩

theorem runPreConditions_all_none (cmd : Obj) (m : AggregateModel) :
    ∀ pcs : List PreCondition, (∀ q ∈ pcs, q.checkErr cmd m = none) →
      runPreConditions pcs cmd m = (none, pcs.map (fun q => q.priority)) := by
  intro pcs
  induction pcs with
  | nil => intro _; rfl
  | cons pc rest ih =>
      intro hnone
      have hpc : pc.checkErr cmd m = none := hnone pc (List.mem_cons_self pc rest)
      simp only [runPreConditions, hpc]
      rw [ih (fun q hq => hnone q (List.mem_cons_of_mem pc hq))]
      simp

theorem runPreConditions_first_error (cmd : Obj) (m : AggregateModel) :
    ∀ (l1 : List PreCondition) (pc : PreCondition) (l2 : List PreCondition) (e : Err),
      (∀ q ∈ l1, q.checkErr cmd m = none) → pc.checkErr cmd m = some e →
      runPreConditions (l1 ++ pc :: l2) cmd m
        = (some e, l1.map (fun q => q.priority) ++ [pc.priority]) := by
  intro l1
  induction l1 with
  | nil =>
      intro pc l2 e _ hpc
      simp [runPreConditions, hpc]
  | cons q rest ih =>
      intro pc l2 e hnone hpc
      have hq : q.checkErr cmd m = none := hnone q (List.mem_cons_self q rest)
      simp only [List.cons_append, runPreConditions, hq, List.append_eq]
      rw [ih pc l2 e (fun x hx => hnone x (List.mem_cons_of_mem q hx)) hpc]
      simp

/-- C7: aggregate-level preconditions are kept sorted by ascending
priority (addPreCondition re-sorts), the chain visits them in that
ascending order, stops at and propagates the first error without ever
consulting the Command definition (the outcome is the same for any
registered commands), and the command's own checkPreConditions is
delegated to exactly when every aggregate-level precondition passed. -/
theorem c7_preconditions_priority_chain (a : Aggregate) (cmd : Obj) (m : AggregateModel)
    (hSorted : List.Pairwise (fun p q => p.priority ≤ q.priority) a.preConditions) :
    (∀ (l : List PreCondition) (pc : PreCondition),
        List.Pairwise (fun p q => p.priority ≤ q.priority) (addPreConditionList l pc))
    ∧ List.Pairwise (fun x y => x ≤ y) (runPreConditions a.preConditions cmd m).2
    ∧ (∀ l1 pc l2 e, a.preConditions = l1 ++ pc :: l2 →
        (∀ q ∈ l1, q.checkErr cmd m = none) → pc.checkErr cmd m = some e →
        runPreConditions a.preConditions cmd m
          = (some e, l1.map (fun q => q.priority) ++ [pc.priority])
        ∧ checkPreConditions a cmd m = PreResult.err e
        ∧ (∀ cs, checkPreConditions { a with commands := cs } cmd m = PreResult.err e))
    ∧ ((∀ q ∈ a.preConditions, q.checkErr cmd m = none) →
        runPreConditions a.preConditions cmd m
          = (none, a.preConditions.map (fun q => q.priority))
        ∧ checkPreConditions a cmd m = commandPreCheck a cmd m) := by
  refine ⟨?_, ?_, ?_, ?_⟩
  · intro l pc
    exact pairwise_sortByPriority (l ++ [pc])
  · obtain ⟨n, hn⟩ := runPreConditions_trace_take a.preConditions cmd m
    rw [hn]
    have hmap : List.Pairwise (fun x y : Int => x ≤ y)
        (a.preConditions.map (fun q => q.priority)) :=
      List.pairwise_map.mpr hSorted
    exact List.Pairwise.sublist ((List.take_sublist n a.preConditions).map _) hmap
  · intro l1 pc l2 e hsplit hnone hpc
    have hrun := runPreConditions_first_error cmd m l1 pc l2 e hnone hpc
    rw [← hsplit] at hrun
    refine ⟨hrun, ?_, ?_⟩
    · unfold checkPreConditions
      rw [hrun]
    · intro cs
      unfold checkPreConditions
      have hrun2 : runPreConditions ({ a with commands := cs } : Aggregate).preConditions cmd m
          = (some e, l1.map (fun q => q.priority) ++ [pc.priority]) := hrun
      rw [hrun2]
  · intro hnone
    have hrun := runPreConditions_all_none cmd m a.preConditions hnone
    refine ⟨hrun, ?_⟩
    unfold checkPreConditions
    rw [hrun]

/-- Witness for C7: with a passing priority-1 precondition before a
failing priority-5 one, checkPreConditions reports the failure. -/
theorem c7_preconditions_priority_chain_witness :
    checkPreConditions aggPre cmdDoIt model0 = PreResult.err (Err.external 3) := by
  have hs : List.Pairwise (fun p q : PreCondition => p.priority ≤ q.priority)
      aggPre.preConditions := by
    show List.Pairwise _ [pcPass, pcFail]
    refine List.pairwise_cons.mpr ⟨?_, List.pairwise_singleton _ _⟩
    intro x hx
    rcases List.mem_cons.mp hx with rfl | hx2
    · decide
    · cases hx2
  have h := c7_preconditions_priority_chain aggPre cmdDoIt model0 hs
  exact (h.2.2.1 [pcPass] pcFail [] (Err.external 3) rfl
    (by intro q hq
        rcases List.mem_cons.mp hq with rfl | hq2
        · rfl
        · cases hq2)
    rfl).2.1

theorem heapGet_append_lt (h : Heap) (v : Obj) (r : Nat) (hr : r < h.length) :
    heapGet (h ++ [v]) r = heapGet h r := by
  unfold heapGet
  rw [List.getD_append _ _ _ _ hr]

theorem heapGet_append_self (h : Heap) (v : Obj) :
    heapGet (h ++ [v]) h.length = v := by
  unfold heapGet
  rw [List.getD_eq_getElem?_getD]
  simp

theorem heapGet_set_ne (h : Heap) (r1 r : Nat) (v : Obj) (hne : r1 ≠ r) :
    heapGet (heapSet h r1 v) r = heapGet h r := by
  unfold heapGet heapSet
  rw [List.getD_eq_getElem?_getD, List.getD_eq_getElem?_getD,
    List.getElem?_set_ne hne]

/-- C9: each aggregate-level precondition receives a deep copy of the
command (the original's value), and whatever the preconditions write to
their copies, the original command cell is unchanged when the chain
finishes — so the command passed on to the command's own check, the
handler and the business rules is unaffected by this phase. -/
theorem c9_preconditions_deep_copy (pcs : List PreCondition) (h : Heap) (r : Nat)
    (m : AggregateModel) (hr : r < h.length) :
    heapGet (runPreConditionsHeap pcs h r m).1 r = heapGet h r
    ∧ ∀ v ∈ (runPreConditionsHeap pcs h r m).2.2, v = heapGet h r := by
  induction pcs generalizing h with
  | nil => exact ⟨rfl, by intro v hv; cases hv⟩
  | cons pc rest ih =>
      have hclone : heapGet (h ++ [heapGet h r]) h.length = heapGet h r :=
        heapGet_append_self h (heapGet h r)
      have hget2 : ∀ w, heapGet (heapSet (h ++ [heapGet h r]) h.length w) r = heapGet h r := by
        intro w
        rw [heapGet_set_ne _ _ _ _ (Nat.ne_of_gt hr), heapGet_append_lt h _ r hr]
      have hlen2 : ∀ w, r < (heapSet (h ++ [heapGet h r]) h.length w).length := by
        intro w
        unfold heapSet
        rw [List.length_set, List.length_append]
        omega
      simp only [runPreConditionsHeap, heapAlloc, hclone]
      cases hc : pc.checkErr (heapGet h r) m with
      | some e =>
          refine ⟨hget2 _, ?_⟩
          intro v hv
          rcases List.mem_singleton.mp hv with rfl
          rfl
      | none =>
          obtain ⟨ih1, ih2⟩ := ih (heapSet (h ++ [heapGet h r]) h.length
            (pc.checkWrite (heapGet h r))) (hlen2 _)
          refine ⟨?_, ?_⟩
          · rw [ih1, hget2]
          · intro v hv
            rcases List.mem_cons.mp hv with rfl | hv2
            · rfl
            · rw [ih2 v hv2, hget2]

/-- Witness for C9: a precondition that scribbles over its command copy
leaves the original command cell intact. -/
theorem c9_preconditions_deep_copy_witness :
    heapGet (runPreConditionsHeap [pcMutating] [cmdDoIt] 0 model0).1 0
      = heapGet [cmdDoIt] 0 :=
  (c9_preconditions_deep_copy [pcMutating] [cmdDoIt] 0 model0 (by decide)).1

theorem assignIdsFrom_length (a : Aggregate) (gen : Nat → Except Err String) :
    ∀ (es : List Obj) (j : Nat), (assignIdsFrom a gen j es).1.length = es.length := by
  intro es
  induction es with
  | nil => intro j; rfl
  | cons e rest ih =>
      intro j
      simp only [assignIdsFrom, List.length_cons]
      rw [ih (j + 1)]

/-- C1 counterexample: when event-id generation fails, handle invokes the
callback with the error but performs no rollback: the model keeps the
handler's field changes and a non-empty uncommitted-event buffer, so the
claimed rollback on id-generation failure is false. -/
theorem c1_counterexample_no_rollback_on_idgen_failure :
    handle aggGenFail model0 cmdDoIt
      = HandleOutcome.callbackErr (Err.external 7)
          (AggregateModel.mk "id1" 1 [("x", Value.vnat 1)] [evtDone1])
    ∧ (AggregateModel.mk "id1" 1 [("x", Value.vnat 1)] [evtDone1]).uncommittedEvents ≠ []
    ∧ (AggregateModel.mk "id1" 1 [("x", Value.vnat 1)] [evtDone1]).attributes
        ≠ model0.attributes := by
  refine ⟨by decide, by decide, by decide⟩

/-- C1 amended: on a model whose uncommitted buffer is empty before the
call, a precondition failure reaches the callback with the model exactly
as it was (field bag and empty buffer intact); a business-rule failure
reaches the callback with the field bag restored from the previous-model
snapshot and the buffer cleared; an id-generation failure reaches the
callback with no rollback: the handler's field changes and the
uncommitted events (same count) remain on the model. -/
theorem c1_rollback_semantics (a : Aggregate) (m : AggregateModel) (cmd : Obj) (c : Command)
    (hEmpty : m.uncommittedEvents = [])
    (hRes : resolveCommand a cmd = Except.ok c) :
    (∀ e, checkPreConditions a cmd m = PreResult.err e →
        handle a m cmd = HandleOutcome.callbackErr e m ∧ m.uncommittedEvents = [])
    ∧ (∀ e m1 es2, checkPreConditions a cmd m = PreResult.ok →
        applyMany a cmd (c.handleApplies cmd m) m = Except.ok m1 →
        assignIds a a.getNewId m1.uncommittedEvents = (es2, none) →
        a.checkBusinessRules { m1 with uncommittedEvents := es2 }
            (AggregateModel.mk m.id 0 m.attributes []) es2 cmd = some e →
        handle a m cmd = HandleOutcome.callbackErr e
          { m1 with attributes := m.attributes, uncommittedEvents := [] })
    ∧ (∀ e m1 es2, checkPreConditions a cmd m = PreResult.ok →
        applyMany a cmd (c.handleApplies cmd m) m = Except.ok m1 →
        assignIds a a.getNewId m1.uncommittedEvents = (es2, some e) →
        handle a m cmd = HandleOutcome.callbackErr e { m1 with uncommittedEvents := es2 }
          ∧ es2.length = m1.uncommittedEvents.length) := by
  refine ⟨?_, ?_, ?_⟩
  · intro e hPre
    refine ⟨?_, hEmpty⟩
    simp only [handle, hRes, handleResolved, hPre]
  · intro e m1 es2 hPre hApply hAssign hRules
    simp only [handle, hRes, handleResolved, hPre, hApply, hAssign,
      Aggregate.checkBusinessRules] at *
    simp only [hRules]
  · intro e m1 es2 hPre hApply hAssign
    refine ⟨?_, ?_⟩
    · simp only [handle, hRes, handleResolved, hPre, hApply, hAssign]
    · have hl := assignIdsFrom_length a a.getNewId m1.uncommittedEvents 0
      have : (assignIds a a.getNewId m1.uncommittedEvents).1 = es2 := by rw [hAssign]
      rw [← this]
      exact hl

/-- Witness for C1 at the business-rule-failure case: the callback gets
the rule's error with the field bag restored and the buffer cleared. -/
theorem c1_rollback_semantics_witness :
    handle aggRuleFail model0 cmdDoIt
      = HandleOutcome.callbackErr (Err.external 9) (AggregateModel.mk "id1" 1 [] []) := by
  have h := c1_rollback_semantics aggRuleFail model0 cmdDoIt cmdDoItDef rfl rfl
  exact h.2.1 (Err.external 9)
    (AggregateModel.mk "id1" 1 [("x", Value.vnat 1)] [evtDone1])
    [Obj.put evtDone1 "id" (Value.vstr "gen1")]
    rfl rfl (by decide) (by decide)

theorem assignIdsFrom_none_spec (a : Aggregate) (gen : Nat → Except Err String) :
    ∀ (es : List Obj) (j : Nat) (es2 : List Obj),
      assignIdsFrom a gen j es = (es2, none) →
      ∀ i, i < es.length →
        (truthyOpt (Obj.get (es.getD i []) a.defs.event.id) = true →
          es2.getD i [] = es.getD i []) ∧
        (truthyOpt (Obj.get (es.getD i []) a.defs.event.id) = false →
          ∃ s, gen (j + i) = Except.ok s ∧
            Obj.get (es2.getD i []) a.defs.event.id = some (Value.vstr s)) := by
  intro es
  induction es with
  | nil =>
      intro j es2 _ i hi
      exact absurd hi (by simp)
  | cons e rest ih =>
      intro j es2 h i hi
      simp only [assignIdsFrom] at h
      cases hone : assignOne a gen j e with
      | mk e1 oerr =>
          cases hrest : assignIdsFrom a gen (j + 1) rest with
          | mk rest1 oerr2 =>
              rw [hone, hrest] at h
              simp only [Prod.mk.injEq] at h
              obtain ⟨hlist, herr⟩ := h
              cases oerr with
              | some er => simp at herr
              | none =>
                  simp at herr
                  subst herr
                  cases i with
                  | zero =>
                      rw [← hlist]
                      simp only [List.getD_cons_zero, Nat.add_zero]
                      constructor
                      · intro htrue
                        unfold assignOne at hone
                        rw [htrue] at hone
                        simp at hone
                        exact hone.symm
                      · intro hfalse
                        unfold assignOne at hone
                        rw [hfalse] at hone
                        simp only [Bool.false_eq_true, if_false] at hone
                        cases hg : gen j with
                        | error er2 => rw [hg] at hone; simp at hone
                        | ok s =>
                            rw [hg] at hone
                            simp at hone
                            refine ⟨s, rfl, ?_⟩
                            rw [← hone]
                            exact Obj.get_put_self _ _ _
                  | succ i2 =>
                      have hi2 : i2 < rest.length := by
                        simp only [List.length_cons] at hi
                        omega
                      have hrec := ih (j + 1) rest1 (by rw [hrest]) i2 hi2
                      rw [← hlist]
                      simp only [List.getD_cons_succ]
                      have harith : j + 1 + i2 = j + (i2 + 1) := by omega
                      rw [harith] at hrec
                      exact hrec

/-- C4: after a successful id-assignment step, the buffer keeps its
length; every event that entered with a JS-truthy value at the event id
path is unchanged, and every event that lacked one carries the id the
injected generator produced for its position. -/
theorem c4_id_backfill (a : Aggregate) (gen : Nat → Except Err String)
    (es es2 : List Obj) (h : assignIds a gen es = (es2, none)) :
    es2.length = es.length
    ∧ ∀ i, i < es.length →
        (truthyOpt (Obj.get (es.getD i []) a.defs.event.id) = true →
          es2.getD i [] = es.getD i []) ∧
        (truthyOpt (Obj.get (es.getD i []) a.defs.event.id) = false →
          ∃ s, gen i = Except.ok s ∧
            Obj.get (es2.getD i []) a.defs.event.id = some (Value.vstr s)) := by
  constructor
  · have hl := assignIdsFrom_length a gen es 0
    have he : (assignIdsFrom a gen 0 es).1 = es2 := by
      unfold assignIds at h
      rw [h]
    rw [← he]
    exact hl
  · intro i hi
    have hrec := assignIdsFrom_none_spec a gen es 0 es2 h i hi
    simpa using hrec

/-- Witness for C4: an explicit id survives, a missing one is filled with
the generator's output for that position. -/
theorem c4_id_backfill_witness :
    ([[("id", Value.vstr "keep"), ("name", Value.vstr "done")],
      [("name", Value.vstr "done"), ("id", Value.vstr "gid")]].length
        = [[("id", Value.vstr "keep"), ("name", Value.vstr "done")],
           [("name", Value.vstr "done")]].length)
    ∧ ∃ s, genFixed 1 = Except.ok s ∧
        Obj.get ([[("id", Value.vstr "keep"), ("name", Value.vstr "done")],
          [("name", Value.vstr "done"), ("id", Value.vstr "gid")]].getD 1 []) "id"
          = some (Value.vstr s) := by
  have h := c4_id_backfill aggBase genFixed
    [[("id", Value.vstr "keep"), ("name", Value.vstr "done")],
     [("name", Value.vstr "done")]]
    [[("id", Value.vstr "keep"), ("name", Value.vstr "done")],
     [("name", Value.vstr "done"), ("id", Value.vstr "gid")]]
    (by decide)
  exact ⟨h.1, (h.2 1 (by decide)).2 (by decide)⟩

/-- C6: loading a snapshot at the current definition version assigns its
data directly and flags no fresh snapshot from this branch; at an older
version, a registered conversion is applied and a fresh snapshot is
flagged, while a missing conversion is a configuration error; every
non-failing branch sets the model's revision to the snapshot's stored
revision, and with no trailing events loadFromHistory returns exactly the
snapshot phase's outcome. -/
theorem c6_snapshot_version_handling (a : Aggregate) (m : AggregateModel) (s : Snapshot) :
    (s.version = a.version →
      loadSnapshotPhase a m (some s)
        = Except.ok ((m.set s.data).setRevision s.revision, false)
      ∧ ((m.set s.data).setRevision s.revision).revision = s.revision)
    ∧ (∀ conv, s.version ≠ a.version → a.snapshotConversions s.version = some conv →
      loadSnapshotPhase a m (some s)
        = Except.ok ((conv s.data m).setRevision s.revision, true)
      ∧ ((conv s.data m).setRevision s.revision).revision = s.revision)
    ∧ (s.version ≠ a.version → a.snapshotConversions s.version = none →
      loadSnapshotPhase a m (some s) = Except.error Err.noSnapshotConversion)
    ∧ (∀ lt, loadFromHistory a m (some s) none lt = loadSnapshotPhase a m (some s)) := by
  refine ⟨?_, ?_, ?_, ?_⟩
  · intro hv
    exact ⟨by simp [loadSnapshotPhase, hv], by simp [AggregateModel.setRevision]⟩
  · intro conv hv hc
    exact ⟨by simp [loadSnapshotPhase, hv, hc], by simp [AggregateModel.setRevision]⟩
  · intro hv hc
    simp [loadSnapshotPhase, hv, hc]
  · intro lt
    unfold loadFromHistory
    cases h : loadSnapshotPhase a m (some s) with
    | error e => rfl
    | ok pr =>
        obtain ⟨m1, need1⟩ := pr
        rfl

/-- Witness for C6 at the conversion branch: a version-1 snapshot loaded
into a version-2 aggregate goes through the registered conversion, flags
a fresh snapshot, and lands at the stored revision 42. -/
theorem c6_snapshot_version_handling_witness :
    loadSnapshotPhase aggConv model0 (some snapOld)
      = Except.ok ((convMerge snapOld.data model0).setRevision snapOld.revision, true)
    ∧ ((convMerge snapOld.data model0).setRevision snapOld.revision).revision
      = snapOld.revision := by
  exact (c6_snapshot_version_handling aggConv model0 snapOld).2.1 convMerge
    (by decide) rfl

end CqrsDomain
